import Mathlib

/-!
Verification of the include-resolution and packaging pipeline in
`src/pyro/PackageManager.py`.

Paths are modelled as plain strings with POSIX-style `/` separators.  The
behaviours the claims turn on — Python's substring containment test
(`root_path in path`), `str.startswith`, anchored `fnmatch` matching, the
component algebra of `os.path.normpath` / `os.path.join` / `os.path.relpath`
— are separator-independent, so the verdicts carry over to Windows paths.
`str.casefold` is modelled as ASCII lowercasing, which agrees with it on all
names appearing here.
-/

namespace Pyro

/-! ### Character-list path primitives -/

/-- `os.pardir` on POSIX and Windows. -/
def pardir : String := ".."

/-- `os.curdir` on POSIX and Windows. -/
def curdir : String := "."

/-- Python `s.startswith(p)`. -/
def str_starts (s p : String) : Bool := p.data.isPrefixOf s.data

/-- Python `s.endswith(p)`. -/
def str_ends (s p : String) : Bool := p.data.isSuffixOf s.data

/-- Python `needle in hay` (substring containment). -/
def containsStrL : List Char → List Char → Bool
  | [], needle => needle.isEmpty
  | c :: t, needle => needle.isPrefixOf (c :: t) || containsStrL t needle

/-- Python `needle in hay` on strings. -/
def containsStr (hay needle : String) : Bool := containsStrL hay.data needle.data

/-- Python `s.casefold()` (ASCII lowercasing suffices for the names used here). -/
def str_lower (s : String) : String := ⟨s.data.map Char.toLower⟩

/-- `os.path.isabs` on a character list: the path begins with the separator. -/
def isabsL : List Char → Bool
  | [] => false
  | c :: _ => c == '/'

/-- `os.path.isabs`. -/
def isabs (s : String) : Bool := isabsL s.data

/-- Split a character list on the `/` separator, keeping empty components. -/
def splitSep : List Char → List (List Char)
  | [] => [[]]
  | c :: rest =>
    if c == '/' then [] :: splitSep rest
    else
      match splitSep rest with
      | [] => [[c]]
      | g :: gs => (c :: g) :: gs

/-- One step of `os.path.normpath`'s component processing.  `stack` holds the
kept components in reverse order.  Empty and `.` components are dropped; `..`
pops a component (for absolute paths it is dropped at the root, for relative
paths leading `..`s are kept); other components are pushed. -/
def pushComp (abs : Bool) (stack : List (List Char)) (c : List Char) : List (List Char) :=
  if c = [] ∨ c = ['.'] then stack
  else if c = ['.', '.'] then
    if abs then stack.tail
    else
      match stack with
      | [] => [['.', '.']]
      | top :: rest => if top = ['.', '.'] then ['.', '.'] :: top :: rest else rest
  else c :: stack

/-- Join components with `/` between them. -/
def intercalateSep : List (List Char) → List Char
  | [] => []
  | [g] => g
  | g :: g' :: gs => g ++ '/' :: intercalateSep (g' :: gs)

/-- `os.path.normpath` on a character list (single-slash POSIX form). -/
def normpathL (l : List Char) : List Char :=
  if isabsL l then
    '/' :: intercalateSep (((splitSep l).foldl (pushComp true) []).reverse)
  else
    match intercalateSep (((splitSep l).foldl (pushComp false) []).reverse) with
    | [] => ['.']
    | r => r

/-- `os.path.normpath`. -/
def normpath (s : String) : String := ⟨normpathL s.data⟩

/-- `os.path.join a b` for a single right operand. -/
def joinPath (a b : String) : String :=
  if isabs b then b
  else if a == "" then b
  else if a.data.getLast? == some '/' then a ++ b
  else a ++ "/" ++ b

/-- The components of a path string. -/
def pathComps (s : String) : List String := (splitSep s.data).map (fun l => (⟨l⟩ : String))

/-- Whether a root-relative path contains a parent-directory segment. -/
def has_parent_segment (p : String) : Bool := (pathComps p).contains pardir

/-- The spec's notion of path containment: `p` lies under directory `root`
when it equals `root` or extends it across a separator.  (The code never
computes this; it is the property the claims assert.) -/
def isUnderDir (root p : String) : Bool := p == root || str_starts p (root ++ "/")

/-! ### Shell-pattern matching (`fnmatch`) and globbing (`glob.iglob`) -/

/-- Core shell-style wildcard matcher on character lists: `*` matches any
character sequence (including separators, as in `fnmatch`) — realized by
trying the rest of the pattern against every suffix of the name — `?`
matches one character, other characters match literally.  Character classes
(`[...]`) are not modelled; no pattern in this development uses them. -/
def wildMatch : List Char → List Char → Bool
  | [], n => n.isEmpty
  | '*' :: ps, n => n.tails.any (fun t => wildMatch ps t)
  | _ :: _, [] => false
  | c :: ps, n :: nt => (c == '?' || c == n) && wildMatch ps nt

/-- `fnmatch.fnmatch(name, pat)`: anchored full-string wildcard match.
`os.path.normcase` is the identity on POSIX; on Windows it lowercases both
sides, which does not change any verdict here. -/
def fnmatchB (name pat : String) : Bool := wildMatch pat.data name.data

/-- Whether a glob pattern component contains a magic character. -/
def hasMagic (p : String) : Bool := p.data.any (fun c => c == '*' || c == '?' || c == '[')

/-- `glob`'s per-component match: literal components match by equality, and a
wildcard component does not match a hidden (dot-initial) name unless the
pattern itself starts with a dot. -/
def compMatch (pat name : String) : Bool :=
  if !(hasMagic pat) then pat == name
  else if str_starts name curdir && !(str_starts pat curdir) then false
  else wildMatch pat.data name.data

/-- The suffixes of a component list reachable by dropping zero or more
leading non-hidden components — the ways a recursive `**` can consume
directories. -/
def starSuffixes : List String → List (List String)
  | [] => [[]]
  | n :: nt => (n :: nt) :: (if str_starts n curdir then [] else starSuffixes nt)

/-- `glob`'s component-list match.  With `rec = true` a `**` component matches
any number of (non-hidden) components, as `glob.iglob(..., recursive=True)`
does. -/
def globComps (rec : Bool) : List String → List String → Bool
  | [], ns => ns.isEmpty
  | p :: ps, ns =>
    if rec && p == "**" then (starSuffixes ns).any (fun nt => globComps rec ps nt)
    else
      match ns with
      | [] => false
      | n :: nt => compMatch p n && globComps rec ps nt

/-- The file-system state the code consults: existing directories, existing
files, the existing files whose `open(..., 'a')` raises `PermissionError`,
and the output paths whose `zipfile.ZipFile(..., 'w')` raises
`PermissionError`. -/
structure FS where
  dirs : List String
  files : List String
  readonlyFiles : List String
  zipOpenDenied : List String

/-- `os.path.isfile`. -/
def isfile (fs : FS) (p : String) : Bool := fs.files.contains p

/-- `os.path.isdir`. -/
def isdir (fs : FS) (p : String) : Bool := fs.dirs.contains p

/-- `glob.iglob(searchPath, recursive=rec)`: every existing entry (directory
or file) whose components match the pattern's components. -/
def globList (fs : FS) (searchPath : String) (rec : Bool) : List String :=
  (fs.dirs ++ fs.files).filter (fun e => globComps rec (pathComps searchPath) (pathComps e))

/-! ### The include resolver (`PackageManager._generate_include_paths`) -/

/-- One `<Include>` node: its text content and its `NoRecurse` attribute. -/
structure IncludeDecl where
  text : String
  noRecurse : Bool

/-- Line 50: `'*' if no_recurse else r'**\*'` (the raw string holds a literal
backslash). -/
def wildcardPattern (noRecurse : Bool) : String := if noRecurse then "*" else "**\\*"

/-- Lines 56–57: `include_node.text.replace(os.curdir, root_path, 1)`.  The
guard of line 56 ensures the first `.` is the first character, so the
replacement prepends `root` to the rest of the text. -/
def replace_first_dot (t root : String) : String := ⟨root.data ++ t.data.drop 1⟩

/-- Lines 56–60: the curdir substitution followed by `os.path.normpath`,
producing the `path_or_pattern` value the branches of the resolver test. -/
def normalizedText (root t : String) : String :=
  normpath (if t == curdir || str_starts t curdir then replace_first_dot t root else t)

/-- `'*' in path_or_pattern` (line 63). -/
def hasWild (p : String) : Bool := p.data.contains '*'

/-- Modelled from the spec: `PathHelper.find_include_paths` lives in module
`PathHelper`, which is not under `src/`.  Per spec §4.1 it enumerates the
existing files matching the glob `searchPath` (the callers always pass a
folder joined with `wildcardPattern`), recursing unless `noRecurse`. -/
def find_include_paths (fs : FS) (searchPath : String) (noRecurse : Bool) : List String :=
  (globList fs searchPath (!noRecurse)).filter (fun p => isfile fs p)

/-- `_generate_include_paths` (lines 44–97) for a single include node.
Returns the yielded paths together with the number of warnings logged. -/
def generate_include_paths_one (fs : FS) (rootPath : String) (inc : IncludeDecl) :
    List String × Nat :=
  if str_starts inc.text pardir then ([], 1)
  else
    let p := normalizedText rootPath inc.text
    if hasWild p then
      if !(isabs p) then
        let searchPath := joinPath rootPath (wildcardPattern inc.noRecurse)
        (((globList fs searchPath (!inc.noRecurse)).filter
            (fun ip => isfile fs ip && fnmatchB ip p)), 0)
      else if containsStr p rootPath then
        (((globList fs p (!inc.noRecurse)).filter
            (fun ip => isfile fs ip && fnmatchB ip p)), 0)
      else ([], 1)
    else if isabs p then
      if !(containsStr p rootPath) then ([], 1)
      else if isfile fs p then ([p], 0)
      else (find_include_paths fs (joinPath p (wildcardPattern inc.noRecurse)) inc.noRecurse, 0)
    else
      let testPath := joinPath rootPath p
      if !(isdir fs testPath) then ([testPath], 0)
      else
        (find_include_paths fs (joinPath testPath (wildcardPattern inc.noRecurse))
          inc.noRecurse, 0)

/-- `_generate_include_paths` over all include nodes of a package or zip node
(the code's argument order: the node's includes, then the root path).
Non-`Include` children are skipped by line 46 and are not modelled. -/
def generate_include_paths (fs : FS) (includes : List IncludeDecl) (rootPath : String) :
    List String × Nat :=
  includes.foldr
    (fun inc acc =>
      let r := generate_include_paths_one fs rootPath inc
      (r.1 ++ acc.1, r.2 + acc.2))
    ([], 0)

/-! ### Output-name fixing and the write-permission check -/

/-- The index of the last occurrence of `c` in `l`, if any. -/
def lastIdxOf (l : List Char) (c : Char) : Option Nat :=
  ((List.range l.length).filter (fun j => l.getD j ' ' == c)).getLast?

/-- `os.path.splitext(name)[0]`: cut at the last dot of the basename, unless
every character of the basename before that dot is itself a dot (leading
dots never start an extension). -/
def splitext_root (name : String) : String :=
  let l := name.data
  let baseStart : Nat :=
    match lastIdxOf l '/' with
    | none => 0
    | some j => j + 1
  match lastIdxOf l '.' with
  | none => name
  | some d =>
    if baseStart ≤ d &&
        (List.range d).any (fun j => baseStart ≤ j && l.getD j ' ' != '.') then
      ⟨l.take d⟩
    else name

/-- `__init__` line 31: `'.ba2' if game_type == 'fo4' else '.bsa'`. -/
def pak_extension (gameType : String) : String := if gameType == "fo4" then ".ba2" else ".bsa"

/-- `_fix_package_extension` (lines 99–102). -/
def fix_package_extension (gameType : String) (packageName : String) : String :=
  if !(str_ends (str_lower packageName) ".ba2" || str_ends (str_lower packageName) ".bsa") then
    packageName ++ pak_extension gameType
  else splitext_root packageName ++ pak_extension gameType

/-- `_fix_zip_extension` (lines 104–107). -/
def fix_zip_extension (zipName : String) : String :=
  if !(str_ends (str_lower zipName) ".zip") then zipName ++ ".zip"
  else splitext_root zipName ++ ".zip"

/-- `open(file_path, 'a')` — `none` models a raised `PermissionError`. -/
def open_append (fs : FS) (p : String) : Option Unit :=
  if fs.readonlyFiles.contains p then none else some ()

/-- `_check_write_permission` (lines 34–41): `some code` models
`sys.exit(code)`, `none` a normal return. -/
def check_write_permission (fs : FS) (filePath : String) : Option Nat :=
  if isfile fs filePath then
    match open_append fs filePath with
    | none => some 1
    | some _ => none
  else none

/-! ### Staging, command construction and `create_packages` -/

/-- Drop the common leading components of two component lists. -/
def dropCommon : List String → List String → List String × List String
  | a :: as, b :: bs => if a == b then dropCommon as bs else (a :: as, b :: bs)
  | as, bs => (as, bs)

/-- Join a list of components with `/`. -/
def joinComps (l : List String) : String := ⟨intercalateSep (l.map String.data)⟩

/-- `os.path.relpath p start`: normalize both, drop the common component
prefix, climb out of what remains of `start` and descend into what remains of
`p`. -/
def relpath (p start : String) : String :=
  let pc := (pathComps (normpath p)).filter (fun c => c != "")
  let sc := (pathComps (normpath start)).filter (fun c => c != "")
  let rests := dropCommon pc sc
  let parts := (List.replicate rests.2.length pardir) ++ rests.1
  if parts.isEmpty then curdir else joinComps parts

/-- The project-level inputs `create_packages` and `create_zip` consume:
`ProjectOptions` fields plus `ppj.project_name` / `ppj.project_path`. -/
structure ProjectOpts where
  game_type : String
  temp_path : String
  package_path : String
  zip_output_path : String
  bsarch_path : String
  project_name : String
  project_path : String

/-- A `<Package>` node: `Name`, `RootDir` and its `<Include>` children.
Non-`Package` children of `<Packages>` are skipped by line 141 and are not
modelled, so a declaration's `enumerate` index is its position. -/
structure PackageDecl where
  name : String
  rootDir : String
  includes : List IncludeDecl

/-- Lines 164–169: the staging target for one resolved source path, with the
layout fix that reroots compiled scripts under `Scripts`. -/
def stage_target (tempPath rootDir source : String) : String :=
  let rel := relpath source rootDir
  if str_ends (str_lower source) ".pex" && !(str_starts (str_lower rel) "scripts") then
    joinPath (joinPath tempPath ("Scripts")) rel
  else joinPath tempPath rel

/-- The `-fo4` / `-sse` / `-tes5` selection of lines 120–125. -/
def game_flag (gameType : String) : String :=
  if gameType == "fo4" then "-fo4" else if gameType == "sse" then "-sse" else "-tes5"

/-- Wrap an argument in double quotes. -/
def quoteArg (s : String) : String := "\"" ++ s ++ "\""

/-- Modelled from the spec: class `CommandArguments` is not under `src/`.
Per spec §4.3 the command shape is
`<archiverPath> pack <containingFolder> <outputPath> <formatFlag>` with every
path-bearing argument quoted (`build_commands` passes `enquote_value=True`
exactly for those three). -/
def build_commands (opts : ProjectOpts) (containingFolder outputPath : String) : String :=
  quoteArg opts.bsarch_path ++ " pack " ++ quoteArg containingFolder ++ " " ++
    quoteArg outputPath ++ " " ++ game_flag opts.game_type

/-- What one iteration of the `create_packages` loop produces: the resolved
name before extension fixing, the fixed file name, the output path, the
`(source, target)` pairs copied into the staging tree, and the archiver
command passed to `ProcessManager.run_bsarch` (one invocation per package). -/
structure PackageResult where
  preFixName : String
  fileName : String
  filePath : String
  staged : List (String × String)
  command : String

/-- The outcome of a run: the per-declaration results produced before any
`sys.exit`, and the exit code if one occurred. -/
structure RunOutcome (α : Type) where
  results : List α
  exitCode : Option Nat

/-- `create_packages` (lines 129–180), processing the declarations from index
`i` with the run-scoped case-insensitive name set `seen`.  Directory clearing
and creation (lines 131–136, 171, 178–180) have no observable effect on the
modelled outputs and are not tracked. -/
def create_packages_go (fs : FS) (opts : ProjectOpts) :
    Nat → List String → List PackageDecl → RunOutcome PackageResult
  | _, _, [] => ⟨[], none⟩
  | i, seen, d :: rest =>
    let name1 :=
      if seen.contains (str_lower d.name) then opts.project_name ++ (" (" ++ toString i ++ ")")
      else d.name
    let seen' := if !(seen.contains (str_lower name1)) then seen ++ [str_lower name1] else seen
    let fixed := fix_package_extension opts.game_type name1
    let fpath := joinPath opts.package_path fixed
    match check_write_permission fs fpath with
    | some c => ⟨[], some c⟩
    | none =>
      let srcs := (generate_include_paths fs d.includes d.rootDir).1
      let staged := srcs.map (fun s => (s, stage_target opts.temp_path d.rootDir s))
      let cmd := build_commands opts opts.temp_path fpath
      let restOut := create_packages_go fs opts (i + 1) seen' rest
      ⟨⟨name1, fixed, fpath, staged, cmd⟩ :: restOut.results, restOut.exitCode⟩

/-- `create_packages` from the top of the loop. -/
def create_packages (fs : FS) (opts : ProjectOpts) (decls : List PackageDecl) :
    RunOutcome PackageResult :=
  create_packages_go fs opts 0 [] decls

/-! ### `create_zip` -/

/-- A `<ZipFile>` node: `Name`, `RootDir`, `Compression` and its `<Include>`
children. -/
structure ZipDecl where
  name : String
  rootDir : String
  compression : String
  includes : List IncludeDecl

/-- Lines 196–197: the zip collision rename appends the index to the file
name itself. -/
def zip_resolve_name (seen : List String) (i : Nat) (name : String) : String :=
  if seen.contains (str_lower name) then name ++ (" (" ++ toString i ++ ")") else name

/-- What one iteration of the `create_zip` loop produces: names and path as
for packages, whether `ZIP_STORED` was selected, the `(source, arcname)`
entries written, the warnings from the containment re-check of lines 229–231,
and the warnings the resolver itself logged. -/
structure ZipResult where
  preFixName : String
  fileName : String
  filePath : String
  stored : Bool
  entries : List (String × String)
  recheckWarnings : Nat
  resolveWarnings : Nat

/-- Lines 224–236: write the zip entries for one declaration whose root
resolved to `root`.  A yielded path failing the `zip_root_path in
include_path` substring re-check is warned about and skipped; the others are
written under their root-relative arcname. -/
def zip_build_result (fs : FS) (name1 fixed fpath : String) (d : ZipDecl) (root : String) :
    ZipResult :=
  let resolved := generate_include_paths fs d.includes root
  let entries := resolved.1.filterMap
    (fun ip => if containsStr ip root then some (ip, relpath ip root) else none)
  let warns := (resolved.1.filter (fun ip => !(containsStr ip root))).length
  ⟨name1, fixed, fpath, d.compression == "store", entries, warns, resolved.2⟩

/-- `create_zip` (lines 182–239) from declaration index `i` with run-scoped
name set `seen`.  Output-directory creation (lines 184–185) is not tracked. -/
def create_zip_go (fs : FS) (opts : ProjectOpts) :
    Nat → List String → List ZipDecl → RunOutcome ZipResult
  | _, _, [] => ⟨[], none⟩
  | i, seen, d :: rest =>
    let name1 := zip_resolve_name seen i d.name
    let seen' := if !(seen.contains (str_lower name1)) then seen ++ [str_lower name1] else seen
    let fixed := fix_zip_extension name1
    let fpath := joinPath opts.zip_output_path fixed
    match check_write_permission fs fpath with
    | some c => ⟨[], some c⟩
    | none =>
      let rootRes : Option String :=
        if !(isabs d.rootDir) then
          let t := normpath (joinPath opts.project_path d.rootDir)
          if isdir fs t then some t else none
        else some d.rootDir
      match rootRes with
      | none => ⟨[], some 1⟩
      | some root =>
        if fs.zipOpenDenied.contains fpath then ⟨[], some 1⟩
        else
          let restOut := create_zip_go fs opts (i + 1) seen' rest
          ⟨zip_build_result fs name1 fixed fpath d root :: restOut.results, restOut.exitCode⟩

/-- `create_zip` from the top of the loop. -/
def create_zip (fs : FS) (opts : ProjectOpts) (decls : List ZipDecl) : RunOutcome ZipResult :=
  create_zip_go fs opts 0 [] decls

/-! ### Concrete scenarios from the claims -/

/-- The root directory `/proj/src` used by several scenarios. -/
def rootSrc : String := "/proj/src"

/-- The sibling-directory file `/proj/src2/x`, whose path shares `rootSrc` as
a string prefix without lying under it. -/
def siblingFile : String := "/proj/src2/x"

/-- A file system containing only the sibling-directory file. -/
def fsSibling : FS := ⟨["/proj", "/proj/src", "/proj/src2"], [siblingFile], [], []⟩

/-- The C2 scenario file system: `Scripts` under `/proj/src` holding two
`.pex` files and one non-matching file. -/
def fsScripts : FS :=
  ⟨["/proj", "/proj/src", "/proj/src/Scripts"],
   ["/proj/src/Scripts/a.pex", "/proj/src/Scripts/b.pex", "/proj/src/Scripts/c.txt"], [], []⟩

/-- An empty file system. -/
def fsEmpty : FS := ⟨[], [], [], []⟩

/-- Project options with the Classic (non-`fo4`, non-`sse`) game identity. -/
def optsClassic : ProjectOpts :=
  ⟨"tes5", "/tmp/pyro_temp", "/out", "/zips", "bsarch.exe", "MyProj", "/proj"⟩

/-- Classic-game options with a chosen project display name. -/
def optsNamed (pn : String) : ProjectOpts := ⟨"tes5", "/t", "/out", "/zips", "b", pn, "/proj"⟩

/-- The C2 package declaration: one `Scripts/*.pex` include with
`NoRecurse=True`. -/
def pkgScenario : PackageDecl := ⟨"Foo", rootSrc, [⟨"Scripts/*.pex", true⟩]⟩

/-- Two package declarations both named `Foo`. -/
def twoFoo : List PackageDecl := [⟨"Foo", "/r", []⟩, ⟨"Foo", "/r", []⟩]

/-- Package declarations named `Foo` and `Foo.bsa`: distinct before extension
fixing, identical after. -/
def fooAndFooBsa : List PackageDecl := [⟨"Foo", "/r", []⟩, ⟨"Foo.bsa", "/r", []⟩]

/-- The C7 zip declaration: stored compression, one include resolving to the
sibling-directory file outside its `RootDir`. -/
def zipSiblingDecl : ZipDecl := ⟨"Z", rootSrc, "store", [⟨siblingFile, true⟩]⟩

/-- A well-formed path component: nonempty and separator-free. -/
def goodComp (g : List Char) : Prop := g ≠ [] ∧ '/' ∉ g

/-! ### Helper lemmas: `normpath` preserves absoluteness -/

theorem splitSep_ne_nil (l : List Char) : splitSep l ≠ [] := by
  induction l with
  | nil => simp [splitSep]
  | cons c rest ih =>
    by_cases hc : c == '/'
    · simp [splitSep, hc]
    · simp only [splitSep, hc, Bool.false_eq_true, if_false]
      cases hsp : splitSep rest with
      | nil => simp
      | cons g gs => simp

theorem mem_splitSep_no_sep (l : List Char) : ∀ g ∈ splitSep l, '/' ∉ g := by
  induction l with
  | nil => intro g hg; simp [splitSep] at hg; simp [hg]
  | cons c rest ih =>
    intro g hg
    by_cases hc : c == '/'
    · simp only [splitSep, hc, if_true] at hg
      rcases List.mem_cons.mp hg with h | h
      · simp [h]
      · exact ih g h
    · simp only [splitSep, hc, Bool.false_eq_true, if_false] at hg
      cases hsp : splitSep rest with
      | nil => exact absurd hsp (splitSep_ne_nil rest)
      | cons g0 gs =>
        rw [hsp] at hg
        rcases List.mem_cons.mp hg with h | h
        · subst h
          intro hmem
          rcases List.mem_cons.mp hmem with h' | h'
          · exact absurd (beq_iff_eq.mpr h'.symm) (by simpa using hc)
          · exact ih g0 (by rw [hsp]; exact List.mem_cons_self _ _) h'
        · exact ih g (by rw [hsp]; exact List.mem_cons_of_mem _ h)

theorem pushComp_inv (abs : Bool) (stack : List (List Char)) (c : List Char)
    (hs : ∀ g ∈ stack, goodComp g) (hc : '/' ∉ c) :
    ∀ g ∈ pushComp abs stack c, goodComp g := by
  intro g hg
  unfold pushComp at hg
  by_cases h1 : c = [] ∨ c = ['.']
  · rw [if_pos h1] at hg; exact hs g hg
  · rw [if_neg h1] at hg
    by_cases h2 : c = ['.', '.']
    · rw [if_pos h2] at hg
      cases abs with
      | true =>
        rw [if_pos rfl] at hg
        exact hs g (List.mem_of_mem_tail hg)
      | false =>
        rw [if_neg (by simp)] at hg
        cases stack with
        | nil =>
          simp at hg
          subst hg; exact ⟨by simp, by simp⟩
        | cons top rest =>
          have hg' : g ∈ (if top = ['.', '.'] then ['.', '.'] :: top :: rest else rest) := hg
          by_cases h3 : top = ['.', '.']
          · rw [if_pos h3] at hg'
            rcases List.mem_cons.mp hg' with h | h
            · subst h; exact ⟨by simp, by simp⟩
            · exact hs g h
          · rw [if_neg h3] at hg'
            exact hs g (List.mem_cons_of_mem _ hg')
    · rw [if_neg h2] at hg
      rcases List.mem_cons.mp hg with h | h
      · subst h
        refine ⟨?_, hc⟩
        intro hnil
        exact h1 (Or.inl hnil)
      · exact hs g h

theorem foldl_pushComp_inv (abs : Bool) :
    ∀ (comps : List (List Char)) (stack : List (List Char)),
      (∀ g ∈ stack, goodComp g) → (∀ g ∈ comps, '/' ∉ g) →
      ∀ g ∈ comps.foldl (pushComp abs) stack, goodComp g := by
  intro comps
  induction comps with
  | nil => intro stack hs _ g hg; exact hs g hg
  | cons c cs ih =>
    intro stack hs hcs g hg
    simp only [List.foldl_cons] at hg
    exact ih _ (pushComp_inv abs stack c hs (hcs c (List.mem_cons_self _ _)))
      (fun g' hg' => hcs g' (List.mem_cons_of_mem _ hg')) g hg

theorem intercalateSep_cons_ne_sep :
    ∀ (gs : List (List Char)), (∀ g ∈ gs, goodComp g) →
      ∀ c t, intercalateSep gs = c :: t → c ≠ '/' := by
  intro gs
  match gs with
  | [] => intro _ c t h; simp [intercalateSep] at h
  | [g] =>
    intro hg c t h
    simp only [intercalateSep] at h
    have hgood := hg g (List.mem_cons_self _ _)
    subst h
    exact fun hcs => hgood.2 (by rw [hcs]; exact List.mem_cons_self _ _)
  | g :: g' :: gs' =>
    intro hg c t h
    have hgood := hg g (List.mem_cons_self _ _)
    cases g with
    | nil => exact absurd rfl hgood.1
    | cons gc gt =>
      simp only [intercalateSep, List.cons_append] at h
      have : gc = c := (List.cons.injEq _ _ _ _).mp h |>.1
      subst this
      exact fun hcs => hgood.2 (by rw [hcs]; exact List.mem_cons_self _ _)

theorem isabs_normpathL (l : List Char) : isabsL (normpathL l) = isabsL l := by
  by_cases h : isabsL l
  · unfold normpathL
    rw [if_pos h, h]
    simp [isabsL]
  · have h' : isabsL l = false := by simpa using h
    simp only [normpathL, h', Bool.false_eq_true, if_false]
    have hgood : ∀ g ∈ (((splitSep l).foldl (pushComp false) []).reverse), goodComp g := by
      intro g hg
      rw [List.mem_reverse] at hg
      exact foldl_pushComp_inv false (splitSep l) [] (by simp)
        (fun g' hg' => mem_splitSep_no_sep l g' hg') g hg
    cases hi : intercalateSep (((splitSep l).foldl (pushComp false) []).reverse) with
    | nil => simp [isabsL]
    | cons c t =>
      have hc := intercalateSep_cons_ne_sep _ hgood c t hi
      simp [isabsL, hc]

theorem isabsL_append (a b : List Char) (h : isabsL a = true) : isabsL (a ++ b) = true := by
  cases a with
  | nil => simp [isabsL] at h
  | cons c t => simpa [isabsL] using h

theorem str_starts_pardir_curdir {t : String} (h : str_starts t pardir = true) :
    (t == curdir || str_starts t curdir) = true := by
  unfold str_starts pardir at h
  have hpd : (".." : String).data = ['.', '.'] := by decide
  rw [hpd] at h
  cases ht : t.data with
  | nil => rw [ht] at h; simp [List.isPrefixOf] at h
  | cons c rest =>
    rw [ht] at h
    simp only [List.isPrefixOf, Bool.and_eq_true, beq_iff_eq] at h
    have hcdot : c = '.' := h.1.symm
    have : str_starts t curdir = true := by
      unfold str_starts curdir
      have hcd : ("." : String).data = ['.'] := by decide
      rw [hcd, ht, hcdot]
      simp [List.isPrefixOf]
    simp [this]

theorem pardir_normalized_abs {root t : String} (hroot : isabs root = true)
    (h : str_starts t pardir = true) : isabs (normalizedText root t) = true := by
  have hc := str_starts_pardir_curdir h
  unfold normalizedText normpath isabs
  rw [if_pos (by simpa using hc)]
  show isabsL (normpathL (replace_first_dot t root).data) = true
  rw [isabs_normpathL]
  show isabsL (root.data ++ t.data.drop 1) = true
  exact isabsL_append _ _ hroot

/-! ### Claim theorems -/

/-- C1 (counterexample to the claim as stated): with root directory
`/proj/src`, the include `/proj/src2/x` — a file in a sibling directory
whose name merely shares the root as a string prefix — is *not* dropped:
the resolver yields it with no warning, although it does not lie under the
root directory. -/
theorem sibling_root_substring_path_yielded :
    generate_include_paths_one fsSibling rootSrc ⟨siblingFile, true⟩ = ([siblingFile], 0) ∧
    isUnderDir rootSrc siblingFile = false := by
  exact ⟨by decide, by decide⟩

/-- C1 (amended): the resolver enforces only Python substring containment on
absolute includes.  Whenever the normalized include text is absolute and does
not contain the root directory as a substring, the include is dropped with
exactly one warning and yields nothing; an absolute path that does contain
the root as a substring may be yielded even when it lies outside the root
(see the counterexample). -/
theorem absolute_include_needs_root_substring_only (fs : FS) (root : String)
    (inc : IncludeDecl)
    (habs : isabs (normalizedText root inc.text) = true)
    (hnc : containsStr (normalizedText root inc.text) root = false) :
    generate_include_paths_one fs root inc = ([], 1) := by
  by_cases hpd : str_starts inc.text pardir
  · simp [generate_include_paths_one, hpd]
  · have hpd' : str_starts inc.text pardir = false := by simpa using hpd
    by_cases hwd : hasWild (normalizedText root inc.text)
    · simp [generate_include_paths_one, hpd', hwd, habs, hnc]
    · have hwd' : hasWild (normalizedText root inc.text) = false := by simpa using hwd
      simp [generate_include_paths_one, hpd', hwd', habs, hnc]

/-- C1 witness: the absolute include `/other/x`, which does not contain the
root `/proj/src` as a substring, is dropped with one warning. -/
theorem absolute_include_needs_root_substring_only_witness :
    generate_include_paths_one fsEmpty rootSrc ⟨"/other/x", true⟩ = ([], 1) :=
  absolute_include_needs_root_substring_only fsEmpty rootSrc ⟨"/other/x", true⟩
    (by decide) (by decide)

/-- C2 (counterexample to the claim as stated): in the claimed scenario the
staged tree is empty — neither of the two matching `.pex` files is staged,
because the non-recursive broad scan lists only the immediate children of
the root and the anchored relative pattern never matches an absolute
candidate path. -/
theorem classic_scenario_stages_no_files :
    ((create_packages fsScripts optsClassic [pkgScenario]).results.map
        (fun r => r.staged)) = [[]] ∧
    ([] : List (String × String)) ≠
      [("/proj/src/Scripts/a.pex", "/tmp/pyro_temp/Scripts/a.pex"),
       ("/proj/src/Scripts/b.pex", "/tmp/pyro_temp/Scripts/b.pex")] := by
  exact ⟨rfl, by decide⟩

/-- C2 (amended): the scenario package stages zero files and still invokes
the archiver exactly once, with the Classic-game command
`"bsarch.exe" pack "/tmp/pyro_temp" "/out/Foo.bsa" -tes5`. -/
theorem classic_scenario_outcome :
    create_packages fsScripts optsClassic [pkgScenario] =
      ⟨[⟨"Foo", "Foo.bsa", "/out/Foo.bsa", [],
          "\"bsarch.exe\" pack \"/tmp/pyro_temp\" \"/out/Foo.bsa\" -tes5"⟩], none⟩ := by
  rfl

/-- C3 (counterexample to the claim as stated): with project display name
`Bar`, the second of two declarations named `Foo` resolves, before extension
fixing, to `Bar (1)`, not `Foo (1)`. -/
theorem collision_rename_not_foo_one :
    ((create_packages fsEmpty (optsNamed ("Bar")) twoFoo).results.map
        (fun r => r.preFixName)) = ["Foo", "Bar (1)"] ∧
    ("Bar (1)" : String) ≠ "Foo (1)" := by
  exact ⟨by decide, by decide⟩

/-- C3 (amended): on a case-insensitive name collision the declaration index
is appended to the *project display name*, so the second of two declarations
named `Foo` resolves to `<project name> (1)` before extension fixing. -/
theorem collision_rename_appends_index_to_project_name (pn : String) :
    ((create_packages fsEmpty (optsNamed pn) twoFoo).results.map
        (fun r => r.preFixName)) = ["Foo", pn ++ " (1)"] := by
  rfl

/-- C4 (counterexample to the claim as stated): the include text
`a/../../b` normalizes to the root-relative path `../b`, which contains a
parent-directory segment, yet the resolver yields one path (the root-joined
text) and emits no warning. -/
theorem inner_parent_segment_not_rejected :
    has_parent_segment (normalizedText rootSrc "a/../../b") = true ∧
    generate_include_paths_one fsSibling rootSrc ⟨"a/../../b", true⟩ =
      (["/proj/src/../b"], 0) := by
  exact ⟨by decide, by decide⟩

/-- C4 (amended): only an include whose *raw text* begins with the
parent-directory marker is rejected; such an include yields zero paths and
exactly one warning. -/
theorem leading_pardir_text_dropped_with_one_warning (fs : FS) (root : String)
    (inc : IncludeDecl) (h : str_starts inc.text pardir = true) :
    generate_include_paths_one fs root inc = ([], 1) := by
  simp [generate_include_paths_one, h]

/-- C4 witness: the include text `../x` is dropped with one warning. -/
theorem leading_pardir_text_dropped_with_one_warning_witness :
    generate_include_paths_one fsEmpty rootSrc ⟨"../x", true⟩ = ([], 1) :=
  leading_pardir_text_dropped_with_one_warning fsEmpty rootSrc ⟨"../x", true⟩ (by decide)

/-- C5 (confirmed): for an absolute root, an include whose normalized text
has no wildcard and is relative, and whose join with the root is not an
existing directory, yields exactly the joined path — whether or not a file
exists there.  (Includes whose raw text begins with `..` or `.` are excluded
automatically: their normalized text is absolute.) -/
theorem nonpattern_relative_nondir_yields_joined_path (fs : FS) (root : String)
    (inc : IncludeDecl)
    (hroot : isabs root = true)
    (hw : hasWild (normalizedText root inc.text) = false)
    (hrel : isabs (normalizedText root inc.text) = false)
    (hdir : isdir fs (joinPath root (normalizedText root inc.text)) = false) :
    generate_include_paths_one fs root inc =
      ([joinPath root (normalizedText root inc.text)], 0) := by
  by_cases hpd : str_starts inc.text pardir
  · rw [pardir_normalized_abs hroot hpd] at hrel
    cases hrel
  · have hpd' : str_starts inc.text pardir = false := by simpa using hpd
    simp [generate_include_paths_one, hpd', hw, hrel, hdir]

/-- C5 witness: the relative non-pattern include `Docs/readme.txt`, with no
directory (or file) at the joined path, yields exactly the joined path. -/
theorem nonpattern_relative_nondir_yields_joined_path_witness :
    generate_include_paths_one fsEmpty rootSrc ⟨"Docs/readme.txt", true⟩ =
      (["/proj/src/Docs/readme.txt"], 0) := by
  have h := nonpattern_relative_nondir_yields_joined_path fsEmpty rootSrc
    ⟨"Docs/readme.txt", true⟩ (by decide) (by decide) (by decide) (by decide)
  exact h.trans (by decide)

/-- C6 (confirmed): the package extension fixer replaces an existing
`.bsa`/`.ba2` extension — matched case-insensitively — with the
game-specific one and appends it otherwise; in particular `Foo.BSA` under
the `fo4` identity becomes `Foo.ba2`. -/
theorem fix_package_extension_replaces_or_appends :
    fix_package_extension ("fo4") ("Foo.BSA") = "Foo.ba2" ∧
    fix_package_extension ("tes5") ("Foo.BA2") = "Foo.bsa" ∧
    fix_package_extension ("fo4") ("Foo") = "Foo.ba2" ∧
    fix_package_extension ("tes5") ("Foo") = "Foo.bsa" := by
  exact ⟨by decide, by decide, by decide, by decide⟩

/-- C7 (counterexample to the claim as stated): the sibling-directory file
`/proj/src2/x`, yielded for a zip rooted at `/proj/src`, is written into
the archive (one entry) and `create_zip` emits no containment warning,
although the file does not lie under the root. -/
theorem zip_outside_file_written_not_warned :
    ((create_zip fsSibling optsClassic [zipSiblingDecl]).results.map
        (fun r => (r.entries.length, r.recheckWarnings))) = [(1, 0)] ∧
    isUnderDir rootSrc siblingFile = false := by
  exact ⟨by decide, by decide⟩

/-- C7 (amended): in the scenario the yielded outside file passes the
substring containment re-check (its path contains the root as a substring),
so it is written into the stored zip under the parent-traversing entry name
`../src2/x`, with zero containment warnings, and the run continues without
a fatal exit. -/
theorem zip_sibling_scenario_outcome :
    create_zip fsSibling optsClassic [zipSiblingDecl] =
      ⟨[⟨"Z", "Z.zip", "/zips/Z.zip", true, [(siblingFile, "../src2/x")], 0, 0⟩], none⟩ := by
  rfl

/-- C8 (confirmed): a zip declaration whose relative `RootDir` does not
resolve (against the project base directory) to an existing directory is
fatal: assuming the preceding write-permission check passed, processing
stops with exit status 1 and no archive is produced for that declaration or
any later one. -/
theorem zip_unresolvable_relative_root_fatal (fs : FS) (opts : ProjectOpts) (i : Nat)
    (seen : List String) (d : ZipDecl) (rest : List ZipDecl)
    (hrel : isabs d.rootDir = false)
    (hdir : isdir fs (normpath (joinPath opts.project_path d.rootDir)) = false)
    (hwp : check_write_permission fs
        (joinPath opts.zip_output_path (fix_zip_extension (zip_resolve_name seen i d.name))) =
      none) :
    create_zip_go fs opts i seen (d :: rest) = ⟨[], some 1⟩ := by
  simp [create_zip_go, hwp, hrel, hdir]

/-- C8 witness: the declaration with relative root `missing`, which does not
exist under the project path, terminates the run with exit status 1. -/
theorem zip_unresolvable_relative_root_fatal_witness :
    create_zip_go fsEmpty optsClassic 0 []
        [⟨"Z", "missing", "store", []⟩, ⟨"W", "/w", "store", []⟩] = ⟨[], some 1⟩ :=
  zip_unresolvable_relative_root_fatal fsEmpty optsClassic 0 []
    ⟨"Z", "missing", "store", []⟩ [⟨"W", "/w", "store", []⟩]
    (by decide) (by decide) (by decide)

/-- C9 (confirmed): the destination-writability check returns normally for
every path that is not an existing file — whatever the state of the
surrounding directories — and terminates the process, always with exit
status 1, exactly when the path names an existing file that cannot be
opened for appending. -/
theorem check_write_permission_only_existing_unappendable_fatal (fs : FS) (p : String) :
    (isfile fs p = false → check_write_permission fs p = none) ∧
    (check_write_permission fs p = some 1 ↔
      isfile fs p = true ∧ fs.readonlyFiles.contains p = true) ∧
    (check_write_permission fs p = none ∨ check_write_permission fs p = some 1) := by
  by_cases h1 : isfile fs p
  · by_cases h2 : fs.readonlyFiles.contains p
    · have hval : check_write_permission fs p = some 1 := by
        unfold check_write_permission open_append
        rw [if_pos h1, if_pos h2]
      exact ⟨fun h => by simp [h1] at h, ⟨fun _ => ⟨h1, h2⟩, fun _ => hval⟩, Or.inr hval⟩
    · have h2' : fs.readonlyFiles.contains p = false := by simpa using h2
      have hval : check_write_permission fs p = none := by
        unfold check_write_permission open_append
        rw [if_pos h1, if_neg (by simpa using h2')]
      refine ⟨fun _ => hval, ⟨fun h => ?_, fun hh => absurd hh.2 (by simpa using h2')⟩, Or.inl hval⟩
      rw [hval] at h
      simp at h
  · have h1' : isfile fs p = false := by simpa using h1
    have hval : check_write_permission fs p = none := by
      unfold check_write_permission open_append
      rw [if_neg (by simp [h1'])]
    refine ⟨fun _ => hval, ⟨fun h => ?_, fun hh => absurd hh.1 (by simp [h1'])⟩, Or.inl hval⟩
    rw [hval] at h
    simp at h

/-- C9 witness: a path that names no existing file passes the check. -/
theorem check_write_permission_only_existing_unappendable_fatal_witness :
    isfile fsEmpty "/locked/out.bsa" = false ∧
    check_write_permission fsEmpty "/locked/out.bsa" = none :=
  ⟨by decide,
    (check_write_permission_only_existing_unappendable_fatal fsEmpty ("/locked/out.bsa")).1
      (by decide)⟩

/-- C10 (confirmed): the names `Foo` and `Foo.bsa` have distinct case-folded
forms, so no collision rename is applied to the second declaration, yet
after extension fixing under a `.bsa` game identity both resolve to the
identical output file path. -/
theorem unfixed_name_uniqueness_allows_identical_output_paths :
    ((create_packages fsEmpty (optsNamed ("Proj")) fooAndFooBsa).results.map
        (fun r => (r.preFixName, r.filePath))) =
      [("Foo", "/out/Foo.bsa"), ("Foo.bsa", "/out/Foo.bsa")] ∧
    str_lower ("Foo") ≠ str_lower ("Foo.bsa") ∧
    ("Foo.bsa" : String) ≠ "Proj (1)" := by
  exact ⟨by decide, by decide, by decide⟩

end Pyro

